import Mathlib

/-!
Shallow embedding of the reconciliation / sharded-persistence / statistics core
of the sim-analytics repository (sources: `src/unnamed/part_000` and
`src/src/App.jsx`; the two files are two revisions of the same React
component).  Pure functions of the source are translated into Lean
definitions; the stateful React component is modelled by explicit state
records, and the asynchronous remote-store traffic of the migration paths is
modelled as an explicit list of storage steps applied to a store state.

Modelling conventions:
* JavaScript objects used as string-keyed counters (`existingByDate`,
  `incomingPositionByDate`) are modelled as total functions `String → Nat`
  with default value `0`, matching `obj[k] || 0` / the
  `=== undefined` initialisation in the source.  (The model assumes date
  strings do not collide with inherited `Object.prototype` property names.)
* JavaScript numbers that the program treats as integral (clout, bounty
  amounts, counts, positions) are modelled as `Int` / `Nat`.
* `Date` values are modelled as minutes on a proleptic Gregorian time line
  (`daysFromCivil`); sub-minute precision of `new Date()` is dropped, which
  no claim depends on.  The pair of a current year and a current minute
  timestamp is passed explicitly as `NowCtx` in place of `new Date()`.
-/

/-- An event record ("receipt") as pasted and stored: the fields of the
source that the core reads (`user`, `action`, `concept`, `clout`, `date`). -/
structure Receipt where
  user : String
  action : String
  concept : Option String
  clout : Int
  date : String
  deriving DecidableEq, Repr

/-- A bounty record: `{ amount, date }` (see `handleAddBounty` and the
`parsed.bounties` loop of `handlePaste`). -/
structure Bounty where
  amount : Int
  date : String
  deriving DecidableEq, Repr

/-- `!dateStr || !dateStr.trim()`: true when the date string is empty or
whitespace-only — i.e. trimming leaves nothing, i.e. every character is
whitespace (the "missing date" test of `handlePaste`,
`migrateToSubcollections` and `saveToStorage`). -/
def isBlankDate (s : String) : Bool :=
  s.data.all (fun c => c.isWhitespace)

/-- Pointwise update of a string-keyed counter: `m[k] = v`. -/
def setAt (f : String → Nat) (k : String) (v : Nat) : String → Nat :=
  fun d => if d = k then v else f d

/-- Count of receipts in `l` whose `date` field equals the exact string `d`:
the value `existingByDate[d]` holds after the first `receipts.forEach` loop
of `handlePaste` (lines 498-504 of `part_000`). -/
def countDate (l : List Receipt) (d : String) : Nat :=
  (l.filter (fun r => r.date = d)).length

/-- The mutable state of the `parsed.receipts.forEach` loop of `handlePaste`
(`part_000` lines 490-533): the receipts list being extended, the two
string-keyed counters, and the two result counters. -/
structure PasteAcc where
  newReceipts : List Receipt
  existingByDate : String → Nat
  posByDate : String → Nat
  addedCount : Nat
  skippedCount : Nat

/-- One iteration of the `parsed.receipts.forEach` body (`part_000` lines
509-533): skip-and-count blank dates; otherwise compare the running position
within the exact-date group against the (running) existing count, append and
bump the existing count when `positionInDate >= existingCount`, and always
bump the incoming position counter. -/
def pasteStep (acc : PasteAcc) (r : Receipt) : PasteAcc :=
  if isBlankDate r.date then
    { acc with skippedCount := acc.skippedCount + 1 }
  else
    let p := acc.posByDate r.date
    let c := acc.existingByDate r.date
    let acc' :=
      if c ≤ p then
        { acc with
            newReceipts := acc.newReceipts ++ [r]
            addedCount := acc.addedCount + 1
            existingByDate := setAt acc.existingByDate r.date (c + 1) }
      else acc
    { acc' with posByDate := setAt acc'.posByDate r.date (p + 1) }

/-- The initial loop state: `newReceipts = [...receipts]`, `existingByDate`
holding the per-exact-date counts of the current log, empty position
counters, zero result counters. -/
def initPasteAcc (existing : List Receipt) : PasteAcc :=
  { newReceipts := existing
    existingByDate := fun d => countDate existing d
    posByDate := fun _ => 0
    addedCount := 0
    skippedCount := 0 }

/-- The whole receipts-deduplication loop of `handlePaste` run over an
incoming batch (both the `parsed.receipts` branch and the bare-array branch
of the source run this identical loop). -/
def runPasteReceipts (existing incoming : List Receipt) : PasteAcc :=
  incoming.foldl pasteStep (initPasteAcc existing)

/-- Closed-form characterisation of which incoming receipts the loop adds:
an incoming event is added iff its position inside its exact-date-string
group is at least the count of existing events with that same date string
(the running increment of `existingByDate` performed by the loop is
equivalent to this static comparison).  `posBy` is the running
position-within-group counter. -/
def specToAdd (c0 : String → Nat) (posBy : String → Nat) :
    List Receipt → List Receipt
  | [] => []
  | r :: rest =>
    if isBlankDate r.date then specToAdd c0 posBy rest
    else if c0 r.date ≤ posBy r.date then
      r :: specToAdd c0 (setAt posBy r.date (posBy r.date + 1)) rest
    else
      specToAdd c0 (setAt posBy r.date (posBy r.date + 1)) rest

/-- Number of incoming receipts with blank dates. -/
def countBlank (l : List Receipt) : Nat :=
  (l.filter (fun r => isBlankDate r.date)).length

/-! ### The bounty-deduplication loop of `handlePaste`

The `parsed.bounties.forEach` loop (`part_000` lines 535-567) duplicates the
receipts loop, keyed on the bounty's `date`, pushing onto a copy of
`untaggedBounties`; a blank date is skipped without a counter. -/

/-- Count of bounties in `l` whose `date` equals `d` (the initial
`existingBountiesByDate` counter). -/
def countBountyDate (l : List Bounty) (d : String) : Nat :=
  (l.filter (fun b => b.date = d)).length

/-- Mutable state of the bounty loop. -/
structure BountyAcc where
  newUntagged : List Bounty
  existingByDate : String → Nat
  posByDate : String → Nat
  addedCount : Nat

/-- One iteration of the `parsed.bounties.forEach` body. -/
def bountyStep (acc : BountyAcc) (b : Bounty) : BountyAcc :=
  if isBlankDate b.date then acc
  else
    let p := acc.posByDate b.date
    let c := acc.existingByDate b.date
    let acc' :=
      if c ≤ p then
        { acc with
            newUntagged := acc.newUntagged ++ [b]
            addedCount := acc.addedCount + 1
            existingByDate := setAt acc.existingByDate b.date (c + 1) }
      else acc
    { acc' with posByDate := setAt acc'.posByDate b.date (p + 1) }

/-- The whole bounty-deduplication loop. -/
def runPasteBounties (untagged incoming : List Bounty) : BountyAcc :=
  incoming.foldl bountyStep
    { newUntagged := untagged
      existingByDate := fun d => countBountyDate untagged d
      posByDate := fun _ => 0
      addedCount := 0 }

/-! ### The full `handlePaste` control flow (`part_000` lines 484-641) -/

/-- The component state touched by paste: the in-memory event log, the
concept-name-to-bounty-list mapping, and the untagged-bounty list. -/
structure AppState where
  receipts : List Receipt
  bounties : List (String × List Bounty)
  untaggedBounties : List Bounty
  deriving DecidableEq, Repr

/-- Outcome of `JSON.parse` on the pasted text, abstracted to the shape
tests the source performs.  `malformed` covers a throwing `JSON.parse` and
any parse result on which the subsequent property access itself throws
(e.g. `null`); `obj` is the `parsed.receipts && Array.isArray(...)` shape
(`bs = []` models an absent or empty `bounties` field); `arr` is the bare
array shape; `other` is any other successfully parsed value (e.g. `{}`, a
number, a string), which matches neither `if` branch. -/
inductive PasteInput where
  | malformed : PasteInput
  | obj : List Receipt → List Bounty → PasteInput
  | arr : List Receipt → PasteInput
  | other : PasteInput
  deriving DecidableEq, Repr

/-- What paste leaves behind: the component state and whether the
`catch`-branch alert ("failed to paste ...") was shown. -/
structure PasteOutcome where
  state : AppState
  errorAlerted : Bool
  deriving DecidableEq, Repr

/-- `handlePaste`: runs the dedup loops and commits the new state unless
nothing was added; a throw (malformed JSON) alerts and leaves state alone;
an unrecognized parsed shape falls through both branches, touching nothing
and alerting nothing. -/
def handlePaste (st : AppState) (input : PasteInput) : PasteOutcome :=
  match input with
  | PasteInput.malformed => { state := st, errorAlerted := true }
  | PasteInput.obj rs bs =>
      let acc := runPasteReceipts st.receipts rs
      let bacc :=
        if 0 < bs.length then runPasteBounties st.untaggedBounties bs
        else
          { newUntagged := st.untaggedBounties
            existingByDate := fun _ => 0
            posByDate := fun _ => 0
            addedCount := 0 }
      if acc.addedCount = 0 ∧ bacc.addedCount = 0 then
        { state := st, errorAlerted := false }
      else
        { state :=
            { st with receipts := acc.newReceipts, untaggedBounties := bacc.newUntagged }
          errorAlerted := false }
  | PasteInput.arr rs =>
      let acc := runPasteReceipts st.receipts rs
      if acc.addedCount = 0 then { state := st, errorAlerted := false }
      else
        { state := { st with receipts := acc.newReceipts }, errorAlerted := false }
  | PasteInput.other => { state := st, errorAlerted := false }

/-! ### Day-bucket keys and insertion-ordered grouping -/

/-- `normalizeDateToDay` (`part_000` lines 285-288 and 381-385):
`dateStr.match(/^([A-Za-z]+\s+\d+)/)` — the leading run of ASCII letters,
then at least one whitespace character, then at least one digit; on a match
the matched text is the key, otherwise the raw string is returned
unchanged. -/
def normalizeDateToDay (s : String) : String :=
  let cs := s.data
  let letters := cs.takeWhile (fun c => c.isAlpha)
  let rest1 := cs.dropWhile (fun c => c.isAlpha)
  let spaces := rest1.takeWhile (fun c => c.isWhitespace)
  let rest2 := rest1.dropWhile (fun c => c.isWhitespace)
  let digits := rest2.takeWhile (fun c => c.isDigit)
  if letters = [] ∨ spaces = [] ∨ digits = [] then s
  else String.mk (letters ++ spaces ++ digits)

/-- `normalizedDate.replace(/[^a-zA-Z0-9]/g, '_')`: every non-alphanumeric
character becomes an underscore. -/
def sanitizeId (s : String) : String :=
  String.mk (s.data.map (fun c => if c.isAlphanum then c else '_'))

/-- `receiptsByDate[key].push(v)` with on-demand initialisation: appends `v`
to the entry for `key` of an insertion-ordered association list. -/
def insertGrouped {α : Type} (m : List (String × List α)) (k : String) (v : α) :
    List (String × List α) :=
  match m with
  | [] => [(k, [v])]
  | (k', vs) :: rest =>
      if k' = k then (k', vs ++ [v]) :: rest else (k', vs) :: insertGrouped rest k v

/-- All grouped values, in group order (`Object.values(...)` flattened). -/
def groupVals {α : Type} (m : List (String × List α)) : List α :=
  (m.map Prod.snd).flatten

/-! ### `migrateToSubcollections` (`part_000` lines 279-372) -/

/-- One iteration of the grouping `forEach` of `migrateToSubcollections`
(lines 293-305): a blank date is skipped and counted, otherwise the receipt
is pushed (together with its `originalIndex`) into the group of its
normalized date. -/
def migStep (st : List (String × List (Receipt × Nat)) × Nat) (iv : Nat × Receipt) :
    List (String × List (Receipt × Nat)) × Nat :=
  if isBlankDate iv.snd.date then (st.fst, st.snd + 1)
  else (insertGrouped st.fst (normalizeDateToDay iv.snd.date) (iv.snd, iv.fst), st.snd)

/-- The grouping pass of `migrateToSubcollections`: the insertion-ordered
groups (each value is the receipt paired with its `originalIndex`) and the
skipped-missing-date count. -/
def migGroups (data : List Receipt) : List (String × List (Receipt × Nat)) × Nat :=
  data.enum.foldl migStep ([], 0)

/-- A single mutation inside a Firestore batch issued by the migration
loop: a bucket ("date") document write, an item document write (carrying
its payload), or the metadata document write. -/
inductive MigOp where
  | dateDoc : String → Nat → MigOp
  | item : String → Nat → Receipt × Nat → MigOp
  | metadata : MigOp
  deriving DecidableEq, Repr

/-- The write operations one group contributes, in program order: the date
document (`itemCount = dateReceipts.length`), then one item document per
receipt at its position `i` within the group (lines 321-353). -/
def migOpsOfGroup (kv : String × List (Receipt × Nat)) : List MigOp :=
  MigOp.dateDoc (sanitizeId kv.fst) kv.snd.length ::
    kv.snd.enum.map (fun iv => MigOp.item (sanitizeId kv.fst) iv.fst iv.snd)

/-- All write operations of the migration loop in program order (metadata
excluded; it is appended to the final batch). -/
def migOpStream (data : List Receipt) : List MigOp :=
  ((migGroups data).fst.map migOpsOfGroup).flatten

/-- `const MAX_BATCH_SIZE = 450; // leave some headroom` (line 312). -/
def MAX_BATCH_SIZE : Nat := 450

/-- Accumulate one operation into the running batch, committing (moving the
batch into the committed list) as soon as it reaches `MAX_BATCH_SIZE`
(`operationCount >= MAX_BATCH_SIZE` is checked after every single
operation). -/
def batchPush (st : List (List MigOp) × List MigOp) (op : MigOp) :
    List (List MigOp) × List MigOp :=
  let cur := st.snd ++ [op]
  if MAX_BATCH_SIZE ≤ cur.length then (st.fst ++ [cur], []) else (st.fst, cur)

/-- The sequence of batch commits `migrateToSubcollections` issues: the
chunked group/item writes, then the final batch carrying the remaining
operations plus the metadata write (lines 356-369; the final commit always
happens because `operationCount` was just incremented for metadata). -/
def migCommits (data : List Receipt) : List (List MigOp) :=
  let st := (migOpStream data).foldl batchPush ([], [])
  st.fst ++ [st.snd ++ [MigOp.metadata]]

/-! ### The migration paths of `loadFromFirestore` (`part_000` lines 206-268)

Each legacy shape is converted by awaiting `migrateToSubcollections` (the
commit sequence above) and only then deleting the legacy source: the flat
`receipts` collection via a delete batch (lines 226-230), the `userData`
blob via `deleteDoc` (line 244), the pre-cloud local cache via
`localStorage.removeItem` (lines 263-265).  The store state is modelled
coarsely: the receipts present in the current sharded shape, and the three
possible legacy sources. -/

structure MigStore where
  current : List Receipt
  legacyFlat : List Receipt
  legacyBlob : Option (List Receipt)
  localCache : Option (List Receipt)
  deriving DecidableEq, Repr

/-- One remote-store effect of a migration path, in the order the source
awaits them. -/
inductive MigStep where
  | commit : List MigOp → MigStep
  | deleteLegacyFlatDocs : MigStep
  | deleteLegacyBlobDoc : MigStep
  | clearLocalCache : MigStep
  deriving DecidableEq, Repr

/-- The receipts a committed batch makes durable in the sharded shape. -/
def commitItems (ops : List MigOp) : List Receipt :=
  ops.filterMap (fun op =>
    match op with
    | MigOp.item _ _ rv => some rv.fst
    | _ => none)

def applyMigStep (s : MigStore) : MigStep → MigStore
  | MigStep.commit ops => { s with current := s.current ++ commitItems ops }
  | MigStep.deleteLegacyFlatDocs => { s with legacyFlat := [] }
  | MigStep.deleteLegacyBlobDoc => { s with legacyBlob := none }
  | MigStep.clearLocalCache => { s with localCache := none }

def runMigSteps (s : MigStore) (steps : List MigStep) : MigStore :=
  steps.foldl applyMigStep s

/-- Legacy-flat path: all conversion commits, then the legacy delete. -/
def flatMigSteps (data : List Receipt) : List MigStep :=
  (migCommits data).map MigStep.commit ++ [MigStep.deleteLegacyFlatDocs]

/-- Legacy-blob path. -/
def blobMigSteps (data : List Receipt) : List MigStep :=
  (migCommits data).map MigStep.commit ++ [MigStep.deleteLegacyBlobDoc]

/-- Pre-cloud local-cache path. -/
def localMigSteps (data : List Receipt) : List MigStep :=
  (migCommits data).map MigStep.commit ++ [MigStep.clearLocalCache]

/-- Store state when the flat-legacy path starts: data only in the flat
collection. -/
def flatInitStore (data : List Receipt) : MigStore :=
  { current := [], legacyFlat := data, legacyBlob := none, localCache := none }

def blobInitStore (data : List Receipt) : MigStore :=
  { current := [], legacyFlat := [], legacyBlob := some data, localCache := none }

def localInitStore (data : List Receipt) : MigStore :=
  { current := [], legacyFlat := [], legacyBlob := none, localCache := some data }

/-! ### `saveToStorage` (`part_000` lines 374-448) -/

/-- `newReceipts.slice(existingCount)` with `existingCount =
receipts.length`: the receipts that were just added. -/
def saveAdded (receipts newReceipts : List Receipt) : List Receipt :=
  newReceipts.drop receipts.length

/-- `receipts.filter(r => normalizeDateToDay(r.date) === normalizedDate).length`:
how many pre-add receipts share this day-bucket key (line 410). -/
def existingForDate (receipts : List Receipt) (k : String) : Nat :=
  (receipts.filter (fun r => normalizeDateToDay r.date = k)).length

/-- One iteration of the grouping `forEach` of `saveToStorage` (lines
392-403): skip blank dates (uncounted here), otherwise push the receipt
(with `originalIndex = existingCount + index`) into its day-bucket group. -/
def saveStep (existingCount : Nat)
    (st : List (String × List (Receipt × Nat))) (iv : Nat × Receipt) :
    List (String × List (Receipt × Nat)) :=
  if isBlankDate iv.snd.date then st
  else insertGrouped st (normalizeDateToDay iv.snd.date) (iv.snd, existingCount + iv.fst)

/-- The insertion-ordered day-bucket groups of the newly added receipts. -/
def saveGrouped (receipts newReceipts : List Receipt) :
    List (String × List (Receipt × Nat)) :=
  (saveAdded receipts newReceipts).enum.foldl (saveStep receipts.length) []

/-- The writes `saveToStorage` emits for one day-bucket group: the merged
bucket document (`itemCount = existingForDate + dateReceipts.length`) and
one item document per receipt at position `existingForDate + idx`
(lines 406-426). -/
structure GroupWrites where
  normalizedDate : String
  dateId : String
  itemCount : Nat
  items : List (Nat × (Receipt × Nat))
  deriving DecidableEq, Repr

def saveGroupWrites (receipts newReceipts : List Receipt) : List GroupWrites :=
  (saveGrouped receipts newReceipts).map (fun kv =>
    { normalizedDate := kv.fst
      dateId := sanitizeId kv.fst
      itemCount := existingForDate receipts kv.fst + kv.snd.length
      items := kv.snd.enum.map (fun iv =>
        (existingForDate receipts kv.fst + iv.fst, iv.snd)) })

/-- The number of operations in the single batch `saveToStorage` commits:
one bucket-document write per group, one item write per added receipt with
a usable date, plus the metadata write — the source accumulates all of them
into one `writeBatch` and calls `batch.commit()` exactly once (line 436),
with no chunking. -/
def saveCommitOpCount (receipts newReceipts : List Receipt) : Nat :=
  (saveGroupWrites receipts newReceipts).foldl
    (fun n g => n + 1 + g.items.length) 0 + 1

/-- Firestore's hard ceiling on mutations per atomic batch commit. -/
def FIRESTORE_HARD_BATCH_LIMIT : Nat := 500

/-! ### Timestamp parsing and the statistics engine

`parseReceiptDate` (`part_000` lines 798-824) searches the date string for
`(Jan|...|Dec)\s+(\d+)\s+(\d+):(\d+)\s+(AM|PM)`.  The regex alternatives
and character classes are modelled by a deterministic leftmost
maximal-munch scanner (equivalent here because each `+`-class is disjoint
from the character that follows it).  `new Date(...)` values are modelled
as minutes on a proleptic Gregorian time line; "now" is the pair of the
current year (`now.getFullYear()`) and the current minute timestamp. -/

def digitsToNat (ds : List Char) : Nat :=
  ds.foldl (fun n c => n * 10 + (c.toNat - 48)) 0

/-- `(\d+)` followed by `parseInt`: at least one digit, maximal munch. -/
def takeDigits1 (cs : List Char) : Option (Nat × List Char) :=
  let ds := cs.takeWhile (fun c => c.isDigit)
  if ds = [] then none else some (digitsToNat ds, cs.dropWhile (fun c => c.isDigit))

/-- `\s+`: at least one whitespace character. -/
def takeSpaces1 (cs : List Char) : Option (List Char) :=
  if cs.takeWhile (fun c => c.isWhitespace) = [] then none
  else some (cs.dropWhile (fun c => c.isWhitespace))

/-- Match a literal character sequence at the head of the input. -/
def stripChars : List Char → List Char → Option (List Char)
  | [], cs => some cs
  | _ :: _, [] => none
  | c :: p, c' :: cs => if c = c' then stripChars p cs else none

def monthAbbrevs : List (List Char × Nat) :=
  [("Jan".data, 0), ("Feb".data, 1), ("Mar".data, 2), ("Apr".data, 3),
   ("May".data, 4), ("Jun".data, 5), ("Jul".data, 6), ("Aug".data, 7),
   ("Sep".data, 8), ("Oct".data, 9), ("Nov".data, 10), ("Dec".data, 11)]

/-- `(Jan|Feb|...|Dec)` tried in alternation order, with the `monthMap`
value (0-11) of the matched abbreviation. -/
def monthAtAux : List (List Char × Nat) → List Char → Option (Nat × List Char)
  | [], _ => none
  | (p, m) :: rest, cs =>
      match stripChars p cs with
      | some cs' => some (m, cs')
      | none => monthAtAux rest cs

def monthAt (cs : List Char) : Option (Nat × List Char) :=
  monthAtAux monthAbbrevs cs

/-- `(AM|PM)`; the result is `isPM`. -/
def ampmAt (cs : List Char) : Option Bool :=
  match stripChars "AM".data cs with
  | some _ => some false
  | none =>
      match stripChars "PM".data cs with
      | some _ => some true
      | none => none

/-- The five captured groups of the timestamp pattern. -/
structure ClockMatch where
  month : Nat
  day : Nat
  hour12 : Nat
  minute : Nat
  isPM : Bool
  deriving DecidableEq, Repr

/-- Attempt the whole pattern at the current position. -/
def matchClockAt (cs : List Char) : Option ClockMatch :=
  match monthAt cs with
  | none => none
  | some (m, cs1) =>
    match takeSpaces1 cs1 with
    | none => none
    | some cs2 =>
      match takeDigits1 cs2 with
      | none => none
      | some (day, cs3) =>
        match takeSpaces1 cs3 with
        | none => none
        | some cs4 =>
          match takeDigits1 cs4 with
          | none => none
          | some (h, cs5) =>
            match cs5 with
            | ':' :: cs6 =>
              match takeDigits1 cs6 with
              | none => none
              | some (minute, cs7) =>
                match takeSpaces1 cs7 with
                | none => none
                | some cs8 =>
                  match ampmAt cs8 with
                  | none => none
                  | some pm => some ⟨m, day, h, minute, pm⟩
            | _ => none

/-- Unanchored search: try the pattern at each position, leftmost first
(`String.prototype.match` without `^`). -/
def searchClock : List Char → Option ClockMatch
  | [] => none
  | c :: cs =>
      match matchClockAt (c :: cs) with
      | some m => some m
      | none => searchClock cs

/-- Day count of a proleptic-Gregorian civil date from the epoch
1970-01-01 (months 1-12; a `d` outside the month's range rolls over
linearly, exactly as the `MakeDay` normalisation of a JS `Date` does). -/
def daysFromCivil (y : Int) (m : Int) (d : Int) : Int :=
  let y' := y - (if m ≤ 2 then 1 else 0)
  let era := Int.fdiv y' 400
  let yoe := y' - era * 400
  let mp := Int.emod (m + 9) 12
  let doy := Int.fdiv (153 * mp + 2) 5 + d - 1
  let doe := yoe * 365 + Int.fdiv yoe 4 - Int.fdiv yoe 100 + doy
  era * 146097 + doe - 719468

/-- `new Date(year, monthIdx, day, hour, minute)` as minutes (month index
0-11 as produced by `monthMap`). -/
def jsDateValue (year : Int) (monthIdx : Nat) (day : Nat) (hour : Nat) (minute : Nat) : Int :=
  daysFromCivil year ((monthIdx : Int) + 1) (day : Int) * 1440 + (hour : Int) * 60 + minute

/-- The two facets of `new Date()` the code reads: `getFullYear()` and the
comparison/difference value, in minutes. -/
structure NowCtx where
  year : Int
  t : Int
  deriving DecidableEq, Repr

/-- `parseReceiptDate`: pattern search, 12h→24h conversion, current-year
assumption with roll-back-one-year when the result lies in the future. -/
def parseReceiptDate (now : NowCtx) (s : String) : Option Int :=
  match searchClock s.data with
  | none => none
  | some m =>
    let hour : Nat :=
      if m.isPM ∧ m.hour12 ≠ 12 then m.hour12 + 12
      else if ¬ m.isPM ∧ m.hour12 = 12 then 0
      else m.hour12
    let v := jsDateValue now.year m.month m.day hour m.minute
    some (if now.t < v then jsDateValue (now.year - 1) m.month m.day hour m.minute else v)

/-- `filteredReceipts` of `part_000` (lines 826-834): under the `"24h"`
filter a receipt whose date cannot be parsed is excluded
(`if (!receiptDate) return false`), otherwise it is kept iff the parsed
time lies within the last 24 hours; any other filter value keeps
everything. -/
def filteredReceipts (now : NowCtx) (timeFilter : String) (receipts : List Receipt) :
    List Receipt :=
  if timeFilter = "24h" then
    receipts.filter (fun r =>
      match parseReceiptDate now r.date with
      | none => false
      | some t => decide (now.t - t ≤ 24 * 60 ∧ 0 ≤ now.t - t))
  else receipts

/-- `filteredReceipts` of the `App.jsx` revision (lines 403-411): identical
except that an unparsable date is *included* under the `"24h"` filter
(`if (!receiptDate) return true`). -/
def filteredReceiptsApp (now : NowCtx) (timeFilter : String) (receipts : List Receipt) :
    List Receipt :=
  if timeFilter = "24h" then
    receipts.filter (fun r =>
      match parseReceiptDate now r.date with
      | none => true
      | some t => decide (now.t - t ≤ 24 * 60 ∧ 0 ≤ now.t - t))
  else receipts

/-- `x.toFixed(0)` followed by `parseInt`: round to the nearest integer,
ties toward the larger integer (ECMA-262 `Number.prototype.toFixed` picks
the larger candidate on a tie), modelled in exact rational arithmetic. -/
def jsToFixedRound (q : ℚ) : Int :=
  Int.floor (q + 1 / 2)

/-- The ROI expression of `conceptData` (line 875):
`bounty.amount > 0 ? (((windowEarnings - bounty.amount) / bounty.amount) * 100).toFixed(0) : 0`
then `parseInt`. -/
def roiOf (amount earned : Int) : Int :=
  if 0 < amount then jsToFixedRound ((((earned : ℚ) - amount) / amount) * 100) else 0

/-- One element of `bountyWindows` (lines 860-883).  On the unparsable-date
branch the source returns an object without a `date` field, hence
`date : Option String`. -/
structure BountyWindow where
  amount : Int
  date : Option String
  earned : Int
  roi : Int
  deriving DecidableEq, Repr

/-- Membership of a receipt's parsed time in `[t0, t1]`; unparsable receipt
dates are excluded from the earning window. -/
def inWindow (now : NowCtx) (t0 t1 : Int) (r : Receipt) : Bool :=
  match parseReceiptDate now r.date with
  | none => false
  | some t => decide (t0 ≤ t ∧ t ≤ t1)

/-- `windowEarnings`: clout summed over the filtered receipts of this
concept whose parsed time falls within the bounty's 24-hour window. -/
def windowEarnings (now : NowCtx) (frs : List Receipt) (name : String) (t0 t1 : Int) : Int :=
  ((frs.filter (fun r => decide (r.concept = some name) && inWindow now t0 t1 r)).map
    Receipt.clout).sum

/-- The bounty-window computation of `conceptData`: an unparsable bounty
date yields `{amount, earned: 0, roi: -100}` (line 862); otherwise the
24-hour window starting at the bounty's parsed time is summed and the
guarded ROI formula applied. -/
def mkBountyWindow (now : NowCtx) (frs : List Receipt) (name : String) (b : Bounty) :
    BountyWindow :=
  match parseReceiptDate now b.date with
  | none => { amount := b.amount, date := none, earned := 0, roi := -100 }
  | some t =>
    let earned := windowEarnings now frs name t (t + 24 * 60)
    { amount := b.amount, date := some b.date, earned := earned, roi := roiOf b.amount earned }

/-! ### Concrete sample values used by counterexamples and witnesses -/

/-- A receipt with the (unparsable, non-day-pattern) date string "A" and a
distinguishing user field. -/
def rA (u : String) : Receipt :=
  { user := u, action := "like", concept := none, clout := 1, date := "A" }

/-- Two existing events with timestamp "A". -/
def twoA : List Receipt := [rA "e1", rA "e2"]

/-- Three incoming events with timestamp "A". -/
def threeA : List Receipt := [rA "i1", rA "i2", rA "i3"]

/-- A receipt whose date string defeats the timestamp pattern. -/
def rBadDate : Receipt :=
  { user := "alice", action := "like", concept := none, clout := 5,
    date := "not a timestamp" }

/-- A receipt with a regular parsable timestamp. -/
def rOct : Receipt :=
  { user := "you", action := "use", concept := some "c", clout := 3,
    date := "Oct 18 1:15 PM" }

/-- A second receipt in the same day bucket. -/
def rOct9 : Receipt :=
  { user := "bob", action := "tip", concept := some "c", clout := 2,
    date := "Oct 18 9:00 AM" }

/-- An arbitrary "now": year 2025, minute timestamp 0. -/
def now0 : NowCtx := { year := 2025, t := 0 }

/-- A bounty with amount 0 and an unparsable date. -/
def bZeroBad : Bounty := { amount := 0, date := "garbage" }

/-- A small app state. -/
def st0 : AppState :=
  { receipts := [rA "e1"], bounties := [], untaggedBounties := [] }

theorem setAt_self (f : String → Nat) (k : String) (v : Nat) :
    setAt f k v k = v := by
  simp [setAt]

theorem setAt_other (f : String → Nat) (k d : String) (v : Nat) (h : d ≠ k) :
    setAt f k v d = f d := by
  simp [setAt, h]

/-- Workhorse invariant for the dedup loop: as long as `existingByDate` is
the pointwise maximum of the initial counts `c0` and the running position
counters, the loop's result is described by `specToAdd`. -/
theorem pasteFold_spec (inc : List Receipt) (c0 : String → Nat) :
    ∀ acc : PasteAcc, (∀ d, acc.existingByDate d = max (c0 d) (acc.posByDate d)) →
      (inc.foldl pasteStep acc).newReceipts
          = acc.newReceipts ++ specToAdd c0 acc.posByDate inc
        ∧ (inc.foldl pasteStep acc).addedCount
          = acc.addedCount + (specToAdd c0 acc.posByDate inc).length
        ∧ (inc.foldl pasteStep acc).skippedCount
          = acc.skippedCount + countBlank inc := by
  induction inc with
  | nil => intro acc _; simp [specToAdd, countBlank]
  | cons r rest ih =>
    intro acc hinv
    by_cases hb : isBlankDate r.date
    · have hstep : pasteStep acc r = { acc with skippedCount := acc.skippedCount + 1 } := by
        simp [pasteStep, hb]
      have hinv' : ∀ d,
          ({ acc with skippedCount := acc.skippedCount + 1 } : PasteAcc).existingByDate d
            = max (c0 d) (({ acc with skippedCount := acc.skippedCount + 1 } : PasteAcc).posByDate d) := by
        intro d; exact hinv d
      have h := ih _ hinv'
      simp only [List.foldl_cons, hstep]
      refine ⟨?_, ?_, ?_⟩
      · simpa [specToAdd, hb] using h.1
      · simpa [specToAdd, hb] using h.2.1
      · have := h.2.2
        simp only [this]
        simp [countBlank, hb, List.filter_cons]
        omega
    · have hc := hinv r.date
      by_cases hge : c0 r.date ≤ acc.posByDate r.date
      -- the event is added
      · have hcp : acc.existingByDate r.date ≤ acc.posByDate r.date := by
          rw [hc]; omega
        have hstep : pasteStep acc r =
            { newReceipts := acc.newReceipts ++ [r]
              existingByDate := setAt acc.existingByDate r.date (acc.existingByDate r.date + 1)
              posByDate := setAt acc.posByDate r.date (acc.posByDate r.date + 1)
              addedCount := acc.addedCount + 1
              skippedCount := acc.skippedCount } := by
          simp [pasteStep, hb, hcp]
        set acc' : PasteAcc :=
          { newReceipts := acc.newReceipts ++ [r]
            existingByDate := setAt acc.existingByDate r.date (acc.existingByDate r.date + 1)
            posByDate := setAt acc.posByDate r.date (acc.posByDate r.date + 1)
            addedCount := acc.addedCount + 1
            skippedCount := acc.skippedCount } with hacc'
        have hinv' : ∀ d, acc'.existingByDate d = max (c0 d) (acc'.posByDate d) := by
          intro d
          by_cases hd : d = r.date
          · subst hd
            simp only [hacc', setAt_self]
            rw [hc]; omega
          · simp only [hacc', setAt_other _ _ _ _ hd]
            exact hinv d
        have h := ih acc' hinv'
        simp only [List.foldl_cons, hstep]
        refine ⟨?_, ?_, ?_⟩
        · rw [h.1]
          simp [hacc', specToAdd, hb, hge, List.append_assoc]
        · rw [h.2.1]
          simp [hacc', specToAdd, hb, hge]
          omega
        · rw [h.2.2]
          simp [hacc', countBlank, hb, List.filter_cons]
      -- the event is a duplicate: not added
      · have hcp : ¬ acc.existingByDate r.date ≤ acc.posByDate r.date := by
          rw [hc]; omega
        have hstep : pasteStep acc r =
            { acc with posByDate := setAt acc.posByDate r.date (acc.posByDate r.date + 1) } := by
          simp [pasteStep, hb, hcp]
        set acc' : PasteAcc :=
          { acc with posByDate := setAt acc.posByDate r.date (acc.posByDate r.date + 1) } with hacc'
        have hinv' : ∀ d, acc'.existingByDate d = max (c0 d) (acc'.posByDate d) := by
          intro d
          by_cases hd : d = r.date
          · subst hd
            simp only [hacc', setAt_self]
            rw [hc]; omega
          · simp only [hacc', setAt_other _ _ _ _ hd]
            exact hinv d
        have h := ih acc' hinv'
        simp only [List.foldl_cons, hstep]
        refine ⟨?_, ?_, ?_⟩
        · rw [h.1]; simp [hacc', specToAdd, hb, hge]
        · rw [h.2.1]; simp [hacc', specToAdd, hb, hge]
        · rw [h.2.2]; simp [hacc', countBlank, hb, List.filter_cons]

theorem countDate_cons (r : Receipt) (l : List Receipt) (d : String) :
    countDate (r :: l) d = (if r.date = d then 1 else 0) + countDate l d := by
  by_cases h : r.date = d
  · simp [countDate, List.filter_cons, h, Nat.add_comm]
  · simp [countDate, List.filter_cons, h]

theorem countDate_append (a b : List Receipt) (d : String) :
    countDate (a ++ b) d = countDate a d + countDate b d := by
  simp [countDate, List.filter_append]

/-- The dedup loop, started from the real initial state, is described by
`specToAdd` with the static per-date counts of the existing log. -/
theorem runPasteReceipts_eq (ex inc : List Receipt) :
    (runPasteReceipts ex inc).newReceipts
        = ex ++ specToAdd (countDate ex) (fun _ => 0) inc
      ∧ (runPasteReceipts ex inc).addedCount
        = (specToAdd (countDate ex) (fun _ => 0) inc).length
      ∧ (runPasteReceipts ex inc).skippedCount = countBlank inc := by
  have h := pasteFold_spec inc (fun d => countDate ex d) (initPasteAcc ex) ?_
  · simpa [runPasteReceipts, initPasteAcc] using h
  · intro d
    simp only [initPasteAcc]
    omega

/-- Per-date count of the receipts `specToAdd` admits, for a non-blank date
key: the incoming group size truncated by the initial count. -/
theorem specToAdd_countDate (d : String) (hd : isBlankDate d = false) :
    ∀ (l : List Receipt) (c0 posBy : String → Nat),
      countDate (specToAdd c0 posBy l) d
        = posBy d + countDate l d - max (c0 d) (posBy d) := by
  intro l
  induction l with
  | nil =>
    intro c0 posBy
    simp only [specToAdd, countDate, List.filter_nil, List.length_nil]
    omega
  | cons r rest ih =>
    intro c0 posBy
    by_cases hb : isBlankDate r.date
    · have hne : r.date ≠ d := by
        intro h; rw [h, hd] at hb; cases hb
      simp only [specToAdd, hb, if_true, countDate_cons, if_neg hne, ih c0 posBy]
      omega
    · by_cases hge : c0 r.date ≤ posBy r.date
      · by_cases hdr : r.date = d
        · subst hdr
          simp only [specToAdd, hb, hge, if_true, Bool.false_eq_true, if_false,
            countDate_cons, if_pos rfl, ih c0 (setAt posBy r.date (posBy r.date + 1)),
            setAt_self]
          omega
        · simp only [specToAdd, hb, hge, if_true, Bool.false_eq_true, if_false,
            countDate_cons, if_neg hdr,
            ih c0 (setAt posBy r.date (posBy r.date + 1)),
            setAt_other _ _ _ _ (fun h => hdr h.symm)]
          omega
      · by_cases hdr : r.date = d
        · subst hdr
          simp only [specToAdd, hb, hge, if_true, Bool.false_eq_true, if_false,
            countDate_cons, if_pos rfl,
            ih c0 (setAt posBy r.date (posBy r.date + 1)), setAt_self]
          omega
        · simp only [specToAdd, hb, hge, if_true, Bool.false_eq_true, if_false,
            countDate_cons, if_neg hdr,
            ih c0 (setAt posBy r.date (posBy r.date + 1)),
            setAt_other _ _ _ _ (fun h => hdr h.symm)]
          omega

/-- `specToAdd` yields nothing when every non-blank group is already fully
covered by the initial counts. -/
theorem specToAdd_eq_nil :
    ∀ (l : List Receipt) (c0 posBy : String → Nat),
      (∀ d, isBlankDate d = false → posBy d + countDate l d ≤ c0 d) →
      specToAdd c0 posBy l = [] := by
  intro l
  induction l with
  | nil => intro c0 posBy _; simp [specToAdd]
  | cons r rest ih =>
    intro c0 posBy h
    by_cases hb : isBlankDate r.date
    · simp only [specToAdd, hb, if_true]
      refine ih c0 posBy ?_
      intro d hd
      have := h d hd
      have hmono : countDate rest d ≤ countDate (r :: rest) d := by
        rw [countDate_cons]; omega
      omega
    · have hbf : isBlankDate r.date = false := by
        cases hq : isBlankDate r.date
        · rfl
        · exact absurd hq hb
      have hr := h r.date hbf
      rw [countDate_cons, if_pos rfl] at hr
      have hlt : ¬ c0 r.date ≤ posBy r.date := by omega
      simp only [specToAdd, hb, if_false, hlt, Bool.false_eq_true]
      refine ih c0 (setAt posBy r.date (posBy r.date + 1)) ?_
      intro d hd
      by_cases hdr : d = r.date
      · subst hdr
        rw [setAt_self]
        omega
      · rw [setAt_other _ _ _ _ hdr]
        have := h d hd
        have hmono : countDate rest d ≤ countDate (r :: rest) d := by
          rw [countDate_cons]; omega
        omega

/-- No blank-dated receipt ever appears among the admitted receipts. -/
theorem specToAdd_filter_blank :
    ∀ (l : List Receipt) (c0 posBy : String → Nat),
      (specToAdd c0 posBy l).filter (fun r => isBlankDate r.date) = [] := by
  intro l
  induction l with
  | nil => intro c0 posBy; simp [specToAdd]
  | cons r rest ih =>
    intro c0 posBy
    by_cases hb : isBlankDate r.date
    · simp only [specToAdd, hb, if_true]
      exact ih c0 posBy
    · by_cases hge : c0 r.date ≤ posBy r.date
      · simp only [specToAdd, hb, hge, if_true, Bool.false_eq_true, if_false,
          List.filter_cons]
        exact ih c0 _
      · simp only [specToAdd, hb, hge, if_true, Bool.false_eq_true, if_false]
        exact ih c0 _

/-- Each loop iteration either keeps `newReceipts` or appends one receipt. -/
theorem pasteStep_newReceipts (acc : PasteAcc) (r : Receipt) :
    (pasteStep acc r).newReceipts = acc.newReceipts
      ∨ (pasteStep acc r).newReceipts = acc.newReceipts ++ [r] := by
  by_cases hb : isBlankDate r.date
  · left; simp [pasteStep, hb]
  · by_cases hge : acc.existingByDate r.date ≤ acc.posByDate r.date
    · right; simp [pasteStep, hb, hge]
    · left; simp [pasteStep, hb, hge]

/-- The loop only ever appends to `newReceipts`. -/
theorem pasteFold_mono :
    ∀ (inc : List Receipt) (acc : PasteAcc),
      ∃ tl, (inc.foldl pasteStep acc).newReceipts = acc.newReceipts ++ tl := by
  intro inc
  induction inc with
  | nil => intro acc; exact ⟨[], by simp⟩
  | cons r rest ih =>
    intro acc
    obtain ⟨tl, htl⟩ := ih (pasteStep acc r)
    rcases pasteStep_newReceipts acc r with h | h
    · exact ⟨tl, by simp only [List.foldl_cons, htl, h]⟩
    · exact ⟨r :: tl, by simp only [List.foldl_cons, htl, h, List.append_assoc,
        List.singleton_append]⟩

/-- C1: an incoming event at position `p` within its
exact-raw-timestamp-string group is added iff `p` is at least the count of
existing events with that timestamp string — the loop equals the static
characterisation `specToAdd` (whose guard `c0 ≤ posBy` is exactly that
comparison, and which subsumes the in-paste count increment); in particular
for two existing "A" events and three incoming "A" events exactly one event,
the third, is added. -/
theorem c1_position_identity :
    (∀ existing incoming, (runPasteReceipts existing incoming).newReceipts
        = existing ++ specToAdd (countDate existing) (fun _ => 0) incoming
      ∧ (runPasteReceipts existing incoming).addedCount
        = (specToAdd (countDate existing) (fun _ => 0) incoming).length)
    ∧ (runPasteReceipts twoA threeA).newReceipts = twoA ++ [rA "i3"]
    ∧ (runPasteReceipts twoA threeA).addedCount = 1 := by
  refine ⟨fun ex inc => ⟨(runPasteReceipts_eq ex inc).1, (runPasteReceipts_eq ex inc).2.1⟩,
    by decide, by decide⟩

/-- C5: deduplication is idempotent — after appending the admitted receipts
to the log, running the same incoming batch again admits nothing and leaves
the log unchanged. -/
theorem c5_dedup_idempotent (ex inc : List Receipt) :
    (runPasteReceipts ((runPasteReceipts ex inc).newReceipts) inc).addedCount = 0
    ∧ (runPasteReceipts ((runPasteReceipts ex inc).newReceipts) inc).newReceipts
      = (runPasteReceipts ex inc).newReceipts := by
  obtain ⟨h1, _, _⟩ := runPasteReceipts_eq ex inc
  have hnil : specToAdd (countDate ((runPasteReceipts ex inc).newReceipts))
      (fun _ => 0) inc = [] := by
    refine specToAdd_eq_nil inc _ (fun _ => 0) ?_
    intro d hd
    have hc := specToAdd_countDate d hd inc (countDate ex) (fun _ => 0)
    rw [h1, countDate_append]
    simp only [Nat.max_zero] at hc
    simp only []
    omega
  obtain ⟨h1', h2', _⟩ := runPasteReceipts_eq ((runPasteReceipts ex inc).newReceipts) inc
  rw [h1', h2', hnil]
  simp

/-- C7 counterexample: a paste whose text parses to a value of neither
accepted shape (e.g. `{}`) shows no user-visible error at all — the claim
that every such paste "reports a user-visible error" is false. -/
theorem c7_cex_silent_unrecognized_shape :
    (handlePaste st0 PasteInput.other).errorAlerted = false := by
  decide

/-- C7 (amended): malformed JSON alerts and leaves the in-memory event log,
bounty map and untagged-bounty list completely unchanged; a successfully
parsed value of neither accepted shape also leaves all state unchanged, but
silently (no alert is shown). -/
theorem c7_malformed_paste_no_state_change (st : AppState) :
    handlePaste st PasteInput.malformed = { state := st, errorAlerted := true }
    ∧ handlePaste st PasteInput.other = { state := st, errorAlerted := false } := by
  exact ⟨rfl, rfl⟩

/-- C10: paste is append-only on the in-memory log — for either accepted
shape (and for the error shapes) the pre-paste log is a prefix of the
post-paste log, unchanged and in order. -/
theorem c10_paste_append_only (st : AppState) (input : PasteInput) :
    ∃ tl, (handlePaste st input).state.receipts = st.receipts ++ tl := by
  cases input with
  | malformed => exact ⟨[], by simp [handlePaste]⟩
  | obj rs bs =>
    obtain ⟨tl, htl⟩ := pasteFold_mono rs (initPasteAcc st.receipts)
    by_cases h : (runPasteReceipts st.receipts rs).addedCount = 0
      ∧ (if 0 < bs.length then runPasteBounties st.untaggedBounties bs
          else
            { newUntagged := st.untaggedBounties
              existingByDate := fun _ => 0
              posByDate := fun _ => 0
              addedCount := 0 }).addedCount = 0
    · exact ⟨[], by simp [handlePaste, h]⟩
    · refine ⟨tl, ?_⟩
      simp only [handlePaste, if_neg h]
      exact htl
  | arr rs =>
    obtain ⟨tl, htl⟩ := pasteFold_mono rs (initPasteAcc st.receipts)
    by_cases h : (runPasteReceipts st.receipts rs).addedCount = 0
    · exact ⟨[], by simp [handlePaste, h]⟩
    · refine ⟨tl, ?_⟩
      simp only [handlePaste, if_neg h]
      exact htl
  | other => exact ⟨[], by simp [handlePaste]⟩

theorem groupVals_nil {α : Type} : groupVals ([] : List (String × List α)) = [] := by
  simp [groupVals]

theorem groupVals_cons {α : Type} (k : String) (vs : List α) (m : List (String × List α)) :
    groupVals ((k, vs) :: m) = vs ++ groupVals m := by
  simp [groupVals]

/-- Appending a value to its group adds exactly that value (up to
membership) to the grouped values. -/
theorem insertGrouped_vals_mem {α : Type} :
    ∀ (m : List (String × List α)) (k : String) (v x : α),
      x ∈ groupVals (insertGrouped m k v) ↔ x ∈ groupVals m ∨ x = v := by
  intro m
  induction m with
  | nil =>
    intro k v x
    simp [insertGrouped, groupVals_cons, groupVals_nil]
  | cons kv rest ih =>
    intro k v x
    obtain ⟨k', vs⟩ := kv
    by_cases hk : k' = k
    · subst hk
      simp [insertGrouped, groupVals_cons]
      tauto
    · simp only [insertGrouped, if_neg hk, groupVals_cons, List.mem_append]
      rw [ih k v x]
      tauto

/-- The skipped counter of the migration grouping pass counts exactly the
blank-dated entries. -/
theorem migFold_skipped :
    ∀ (l : List (Nat × Receipt)) (st : List (String × List (Receipt × Nat)) × Nat),
      (l.foldl migStep st).snd
        = st.snd + (l.filter (fun iv => isBlankDate iv.snd.date)).length := by
  intro l
  induction l with
  | nil => intro st; simp
  | cons iv rest ih =>
    intro st
    by_cases hb : isBlankDate iv.snd.date
    · simp only [List.foldl_cons, migStep, hb, if_true, ih, List.filter_cons]
      simp [hb]
      omega
    · simp only [List.foldl_cons, migStep, hb, Bool.false_eq_true, if_false, ih,
        List.filter_cons]

/-- Membership in the migration groups: exactly the non-blank entries of
the enumerated input (paired as `(receipt, originalIndex)`). -/
theorem migFold_vals_mem :
    ∀ (l : List (Nat × Receipt)) (st : List (String × List (Receipt × Nat)) × Nat)
      (rv : Receipt × Nat),
      rv ∈ groupVals (l.foldl migStep st).fst
        ↔ rv ∈ groupVals st.fst
          ∨ ((rv.snd, rv.fst) ∈ l ∧ isBlankDate rv.fst.date = false) := by
  intro l
  induction l with
  | nil => intro st rv; simp
  | cons iv rest ih =>
    intro st rv
    by_cases hb : isBlankDate iv.snd.date
    · have hstep : migStep st iv = (st.fst, st.snd + 1) := by
        simp [migStep, hb]
      rw [List.foldl_cons, hstep, ih]
      constructor
      · rintro (h | h)
        · exact Or.inl h
        · exact Or.inr ⟨List.mem_cons_of_mem _ h.1, h.2⟩
      · rintro (h | ⟨hm, hnb⟩)
        · exact Or.inl h
        · rcases List.mem_cons.mp hm with heq | hm'
          · exfalso
            have : rv.fst = iv.snd := congrArg Prod.snd heq
            rw [this, hb] at hnb
            cases hnb
          · exact Or.inr ⟨hm', hnb⟩
    · have hbf : isBlankDate iv.snd.date = false := by
        cases hq : isBlankDate iv.snd.date
        · rfl
        · exact absurd hq hb
      have hstep : migStep st iv
          = (insertGrouped st.fst (normalizeDateToDay iv.snd.date) (iv.snd, iv.fst), st.snd) := by
        simp [migStep, hb]
      rw [List.foldl_cons, hstep, ih, insertGrouped_vals_mem]
      constructor
      · rintro ((h | h) | ⟨hm, hnb⟩)
        · exact Or.inl h
        · refine Or.inr ⟨?_, ?_⟩
          · have h1 : rv.fst = iv.snd := congrArg Prod.fst h
            have h2 : rv.snd = iv.fst := congrArg Prod.snd h
            rw [h1, h2]
            exact List.mem_cons_self _ _
          · have h1 : rv.fst = iv.snd := congrArg Prod.fst h
            rw [h1]; exact hbf
        · exact Or.inr ⟨List.mem_cons_of_mem _ hm, hnb⟩
      · rintro (h | ⟨hm, hnb⟩)
        · exact Or.inl (Or.inl h)
        · rcases List.mem_cons.mp hm with heq | hm'
          · refine Or.inl (Or.inr ?_)
            have h1 : rv.snd = iv.fst := congrArg Prod.fst heq
            have h2 : rv.fst = iv.snd := congrArg Prod.snd heq
            cases rv
            simp only at h1 h2
            rw [h1, h2]
          · exact Or.inr ⟨hm', hnb⟩

/-- Blank-filter length over an enumerated list equals it over the list. -/
theorem enumFrom_blank_length :
    ∀ (l : List Receipt) (n : Nat),
      ((List.enumFrom n l).filter (fun iv => isBlankDate iv.snd.date)).length
        = countBlank l := by
  intro l
  induction l with
  | nil => intro n; simp [countBlank]
  | cons r rest ih =>
    intro n
    by_cases hb : isBlankDate r.date
    · simp [List.enumFrom, List.filter_cons, hb, ih, countBlank]
    · simp [List.enumFrom, List.filter_cons, hb, ih (n + 1), countBlank]

/-- C6: an incoming event with an empty/whitespace-only timestamp is never
added and is counted: the paste loop's `skippedCount` equals the number of
blank-dated incoming events and the post-paste log contains no blank-dated
event beyond those already present; the migration grouping pass counts its
blank-dated receipts the same way and places none of them into any day
bucket. -/
theorem c6_missing_timestamp_rejection (ex inc data : List Receipt) :
    (runPasteReceipts ex inc).skippedCount = countBlank inc
    ∧ (runPasteReceipts ex inc).newReceipts.filter (fun r => isBlankDate r.date)
        = ex.filter (fun r => isBlankDate r.date)
    ∧ (migGroups data).snd = countBlank data
    ∧ (groupVals (migGroups data).fst).filter (fun rv => isBlankDate rv.fst.date) = [] := by
  obtain ⟨h1, _, h3⟩ := runPasteReceipts_eq ex inc
  refine ⟨h3, ?_, ?_, ?_⟩
  · rw [h1, List.filter_append, specToAdd_filter_blank, List.append_nil]
  · rw [migGroups, migFold_skipped]
    simp [List.enum]
    exact enumFrom_blank_length data 0
  · rw [List.filter_eq_nil_iff]
    intro rv hrv
    have h := (migFold_vals_mem data.enum ([], 0) rv).mp hrv
    simp only [groupVals_nil, List.not_mem_nil, false_or] at h
    simp [h.2]

/-- Concrete save scenario: one existing receipt and one new receipt in the
same day bucket. -/
def R0 : List Receipt := [rOct9]

def N0 : List Receipt := [rOct9, rOct]

/-- The group `saveGroupWrites R0 N0` emits. -/
def g0 : GroupWrites :=
  { normalizedDate := "Oct 18", dateId := "Oct_18", itemCount := 2,
    items := [(1, (rOct, 1))] }

/-- C4: for every day-bucket group of a save, the bucket document's
`itemCount` is the pre-add count for that key plus the group size, the item
positions are exactly `existingForDate + localIndex`, and hence every
written position is at least `existingForDate` — the positions
`0 .. existingForDate - 1` already occupied before the save are never
written. -/
theorem c4_save_append_only (receipts newReceipts : List Receipt) (g : GroupWrites)
    (hg : g ∈ saveGroupWrites receipts newReceipts) :
    g.itemCount = existingForDate receipts g.normalizedDate + g.items.length
    ∧ g.items.map Prod.fst
        = (List.range g.items.length).map
            (fun i => existingForDate receipts g.normalizedDate + i)
    ∧ ∀ p ∈ g.items.map Prod.fst, existingForDate receipts g.normalizedDate ≤ p := by
  obtain ⟨kv, hkv, rfl⟩ := List.mem_map.mp hg
  have hlen : (kv.snd.enum.map (fun iv =>
      (existingForDate receipts kv.fst + iv.fst, iv.snd))).length = kv.snd.length := by
    simp [List.enum_length]
  have hpos : (kv.snd.enum.map (fun iv =>
        (existingForDate receipts kv.fst + iv.fst, iv.snd))).map Prod.fst
      = (List.range kv.snd.length).map (fun i => existingForDate receipts kv.fst + i) := by
    rw [List.map_map]
    have : (Prod.fst ∘ fun iv : Nat × (Receipt × Nat) =>
        (existingForDate receipts kv.fst + iv.fst, iv.snd))
        = (fun i => existingForDate receipts kv.fst + i) ∘ Prod.fst := by
      funext iv; rfl
    rw [this, ← List.map_map, List.enum_map_fst]
  refine ⟨by simp [hlen], ?_, ?_⟩
  · simp only [hlen, hpos]
  · intro p hp
    simp only [hpos, List.mem_map, List.mem_range] at hp
    obtain ⟨i, _, rfl⟩ := hp
    exact Nat.le_add_right _ _

/-- Witness for C4 at the concrete scenario: the new receipt lands at
position 1, above the single occupied position 0. -/
theorem c4_save_append_only_witness :
    g0.itemCount = existingForDate R0 g0.normalizedDate + g0.items.length
    ∧ g0.items.map Prod.fst
        = (List.range g0.items.length).map
            (fun i => existingForDate R0 g0.normalizedDate + i)
    ∧ ∀ p ∈ g0.items.map Prod.fst, existingForDate R0 g0.normalizedDate ≤ p :=
  c4_save_append_only R0 N0 g0 (by decide)

set_option maxRecDepth 100000 in
/-- C3 (code bug): `saveToStorage` puts every write of a paste into a
single batch and commits once; pasting 500 new same-day receipts onto an
empty log yields one commit with 502 operations (1 bucket document + 500
items + 1 metadata), exceeding both the migration code's own soft cap of
450 and Firestore's hard per-batch limit of 500. -/
theorem c3_save_single_commit_exceeds_cap :
    saveCommitOpCount [] (List.replicate 500 (rA "x")) = 502
    ∧ FIRESTORE_HARD_BATCH_LIMIT < saveCommitOpCount [] (List.replicate 500 (rA "x"))
    ∧ MAX_BATCH_SIZE < saveCommitOpCount [] (List.replicate 500 (rA "x")) := by
  refine ⟨by decide, by decide, by decide⟩

theorem commitItems_append (a b : List MigOp) :
    commitItems (a ++ b) = commitItems a ++ commitItems b := by
  simp [commitItems, List.filterMap_append]

/-- The chunking fold preserves the operation stream: committed batches
concatenated with the pending batch always equal the operations pushed so
far. -/
theorem batchPush_concat :
    ∀ (ops : List MigOp) (st : List (List MigOp) × List MigOp),
      ((ops.foldl batchPush st).fst.flatten ++ (ops.foldl batchPush st).snd)
        = st.fst.flatten ++ st.snd ++ ops := by
  intro ops
  induction ops with
  | nil => intro st; simp
  | cons op rest ih =>
    intro st
    rw [List.foldl_cons, ih]
    by_cases h : MAX_BATCH_SIZE ≤ (st.snd ++ [op]).length
    · simp only [batchPush, h, if_true]
      simp
    · simp only [batchPush, h, if_false]
      simp

/-- All batches of a migration flattened: the operation stream followed by
the final metadata write. -/
theorem migCommits_flatten (data : List Receipt) :
    (migCommits data).flatten = migOpStream data ++ [MigOp.metadata] := by
  have h := batchPush_concat (migOpStream data) ([], [])
  simp only [List.flatten_nil, List.nil_append] at h
  simp only [migCommits, List.flatten_append, List.flatten_cons, List.flatten_nil,
    List.append_nil]
  rw [← List.append_assoc, h]

/-- Running only batch commits never touches a legacy source and appends
exactly the committed items to the current shape. -/
theorem runMigSteps_commits :
    ∀ (cs : List (List MigOp)) (s : MigStore),
      (runMigSteps s (cs.map MigStep.commit)).legacyFlat = s.legacyFlat
      ∧ (runMigSteps s (cs.map MigStep.commit)).legacyBlob = s.legacyBlob
      ∧ (runMigSteps s (cs.map MigStep.commit)).localCache = s.localCache
      ∧ (runMigSteps s (cs.map MigStep.commit)).current
          = s.current ++ commitItems cs.flatten := by
  intro cs
  induction cs with
  | nil => intro s; simp [runMigSteps, commitItems]
  | cons c rest ih =>
    intro s
    obtain ⟨h1, h2, h3, h4⟩ := ih (applyMigStep s (MigStep.commit c))
    simp only [runMigSteps] at h1 h2 h3 h4 ⊢
    rw [List.map_cons, List.foldl_cons]
    refine ⟨by rw [h1]; rfl, by rw [h2]; rfl, by rw [h3]; rfl, ?_⟩
    rw [h4]
    have hc : (applyMigStep s (MigStep.commit c)).current
        = s.current ++ commitItems c := rfl
    rw [hc, List.flatten_cons, commitItems_append, List.append_assoc]

/-- The items of one group's operations are exactly the group's receipts. -/
theorem commitItems_migOpsOfGroup (kv : String × List (Receipt × Nat)) :
    commitItems (migOpsOfGroup kv) = kv.snd.map Prod.fst := by
  simp only [migOpsOfGroup, commitItems, List.filterMap_cons, List.filterMap_map]
  have hfun : ((fun op : MigOp =>
      match op with
      | MigOp.item _ _ rv => some rv.fst
      | _ => none) ∘ fun iv : Nat × (Receipt × Nat) =>
        MigOp.item (sanitizeId kv.fst) iv.fst iv.snd)
      = some ∘ (Prod.fst ∘ Prod.snd) := by
    funext iv; rfl
  rw [hfun, List.filterMap_eq_map, ← List.map_map, List.enum_map_snd]

theorem commitItems_flatten :
    ∀ (L : List (List MigOp)), commitItems L.flatten = (L.map commitItems).flatten := by
  intro L
  induction L with
  | nil => simp [commitItems]
  | cons a rest ih => simp [commitItems_append, ih]

/-- Every receipt of the list appears (with some index) in its
enumeration. -/
theorem mem_enumFrom_of_mem :
    ∀ (l : List Receipt) (r : Receipt) (n : Nat), r ∈ l →
      ∃ i, (i, r) ∈ List.enumFrom n l := by
  intro l
  induction l with
  | nil => intro r n h; cases h
  | cons a rest ih =>
    intro r n h
    rcases List.mem_cons.mp h with rfl | h'
    · exact ⟨n, List.mem_cons_self _ _⟩
    · obtain ⟨i, hi⟩ := ih r (n + 1) h'
      exact ⟨i, List.mem_cons_of_mem _ hi⟩

/-- Every non-blank receipt of the migrated data is written by some batch
of the migration. -/
theorem mem_commitItems_migOpStream (data : List Receipt) (r0 : Receipt)
    (hmem : r0 ∈ data) (hnb : isBlankDate r0.date = false) :
    r0 ∈ commitItems (migOpStream data) := by
  obtain ⟨i, hi⟩ := mem_enumFrom_of_mem data r0 0 hmem
  have hvals : ((r0, i) : Receipt × Nat) ∈ groupVals (migGroups data).fst := by
    rw [migGroups, migFold_vals_mem data.enum ([], 0) (r0, i)]
    refine Or.inr ⟨?_, hnb⟩
    simpa [List.enum] using hi
  simp only [groupVals, List.mem_flatten, List.mem_map] at hvals
  obtain ⟨vs, ⟨kv, hkv, rfl⟩, hin⟩ := hvals
  rw [migOpStream, commitItems_flatten, List.mem_flatten]
  refine ⟨commitItems (migOpsOfGroup kv), ?_, ?_⟩
  · exact List.mem_map.mpr ⟨migOpsOfGroup kv, List.mem_map.mpr ⟨kv, hkv, rfl⟩, rfl⟩
  · rw [commitItems_migOpsOfGroup]
    exact List.mem_map.mpr ⟨(r0, i), hin, rfl⟩

theorem applyMigStep_current (x : MigStore) (del : MigStep) (h : ∀ ops, del ≠ MigStep.commit ops) :
    (applyMigStep x del).current = x.current := by
  cases del with
  | commit ops => exact absurd rfl (h ops)
  | deleteLegacyFlatDocs => rfl
  | deleteLegacyBlobDoc => rfl
  | clearLocalCache => rfl

/-- C2: in all three migration paths (legacy-flat collection, legacy blob
document, pre-cloud local cache) every conversion commit precedes the
single legacy-delete step, so (i) at no failure point are the legacy source
and the converted data both absent, and (ii) a failure injected after the
last conversion commit and before the legacy delete leaves the legacy
source fully intact and every usable receipt of the source present in the
converted shape. -/
theorem c2_migration_write_before_delete (data : List Receipt) (r0 : Receipt)
    (hmem : r0 ∈ data) (hnb : isBlankDate r0.date = false) :
    ((∀ k, ¬ ((runMigSteps (flatInitStore data) ((flatMigSteps data).take k)).legacyFlat = []
          ∧ (runMigSteps (flatInitStore data) ((flatMigSteps data).take k)).current = []))
      ∧ (runMigSteps (flatInitStore data)
            ((flatMigSteps data).take (migCommits data).length)).legacyFlat = data
      ∧ r0 ∈ (runMigSteps (flatInitStore data)
            ((flatMigSteps data).take (migCommits data).length)).current)
    ∧ ((∀ k, ¬ ((runMigSteps (blobInitStore data) ((blobMigSteps data).take k)).legacyBlob = none
          ∧ (runMigSteps (blobInitStore data) ((blobMigSteps data).take k)).current = []))
      ∧ (runMigSteps (blobInitStore data)
            ((blobMigSteps data).take (migCommits data).length)).legacyBlob = some data
      ∧ r0 ∈ (runMigSteps (blobInitStore data)
            ((blobMigSteps data).take (migCommits data).length)).current)
    ∧ ((∀ k, ¬ ((runMigSteps (localInitStore data) ((localMigSteps data).take k)).localCache = none
          ∧ (runMigSteps (localInitStore data) ((localMigSteps data).take k)).current = []))
      ∧ (runMigSteps (localInitStore data)
            ((localMigSteps data).take (migCommits data).length)).localCache = some data
      ∧ r0 ∈ (runMigSteps (localInitStore data)
            ((localMigSteps data).take (migCommits data).length)).current) := by
  have hitem := mem_commitItems_migOpStream data r0 hmem hnb
  have hne : data ≠ [] := List.ne_nil_of_mem hmem
  have hmemAll : r0 ∈ commitItems (migCommits data).flatten := by
    rw [migCommits_flatten, commitItems_append]
    have hmeta : commitItems [MigOp.metadata] = [] := rfl
    rw [hmeta, List.append_nil]
    exact hitem
  -- state after a prefix of at most all the commits
  have keyA : ∀ (s0 : MigStore) (del : MigStep) (k : Nat),
      k ≤ (migCommits data).length →
      (runMigSteps s0 (((migCommits data).map MigStep.commit ++ [del]).take k)).legacyFlat
          = s0.legacyFlat
        ∧ (runMigSteps s0 (((migCommits data).map MigStep.commit ++ [del]).take k)).legacyBlob
          = s0.legacyBlob
        ∧ (runMigSteps s0 (((migCommits data).map MigStep.commit ++ [del]).take k)).localCache
          = s0.localCache
        ∧ (runMigSteps s0 (((migCommits data).map MigStep.commit ++ [del]).take k)).current
          = s0.current ++ commitItems ((migCommits data).take k).flatten := by
    intro s0 del k hk
    have htake : ((migCommits data).map MigStep.commit ++ [del]).take k
        = ((migCommits data).take k).map MigStep.commit := by
      rw [List.take_append_of_le_length (by simpa using hk), List.map_take]
    rw [htake]
    exact runMigSteps_commits ((migCommits data).take k) s0
  -- state after the whole step list
  have keyB : ∀ (s0 : MigStore) (del : MigStep) (k : Nat),
      (∀ ops, del ≠ MigStep.commit ops) →
      (migCommits data).length < k →
      (runMigSteps s0 (((migCommits data).map MigStep.commit ++ [del]).take k)).current
        = s0.current ++ commitItems (migCommits data).flatten := by
    intro s0 del k hdel hk
    have htake : ((migCommits data).map MigStep.commit ++ [del]).take k
        = (migCommits data).map MigStep.commit ++ [del] := by
      refine List.take_of_length_le ?_
      simp
      omega
    rw [htake, runMigSteps, List.foldl_append]
    have hdelc : List.foldl applyMigStep
        (List.foldl applyMigStep s0 ((migCommits data).map MigStep.commit)) [del]
        = applyMigStep (List.foldl applyMigStep s0 ((migCommits data).map MigStep.commit)) del := rfl
    rw [hdelc, applyMigStep_current _ _ hdel]
    exact (runMigSteps_commits (migCommits data) s0).2.2.2
  have hfull : ((migCommits data).take (migCommits data).length).flatten
      = (migCommits data).flatten := by
    rw [List.take_length]
  refine ⟨⟨?_, ?_, ?_⟩, ⟨?_, ?_, ?_⟩, ⟨?_, ?_, ?_⟩⟩
  · intro k
    rintro ⟨habs, hcur⟩
    simp only [flatMigSteps] at habs hcur
    by_cases hk : k ≤ (migCommits data).length
    · obtain ⟨hF, _, _, _⟩ := keyA (flatInitStore data) MigStep.deleteLegacyFlatDocs k hk
      rw [hF] at habs
      exact hne habs
    · have hc := keyB (flatInitStore data) MigStep.deleteLegacyFlatDocs k
        (fun ops h => MigStep.noConfusion h) (by omega)
      rw [hc] at hcur
      have : r0 ∈ ([] : List Receipt) := by
        rw [← hcur]
        simpa [flatInitStore] using hmemAll
      cases this
  · simp only [flatMigSteps]
    exact (keyA (flatInitStore data) MigStep.deleteLegacyFlatDocs _ le_rfl).1
  · have hc := (keyA (flatInitStore data) MigStep.deleteLegacyFlatDocs _ le_rfl).2.2.2
    simp only [flatMigSteps]
    rw [hc, hfull]
    simpa [flatInitStore] using hmemAll
  · intro k
    rintro ⟨habs, hcur⟩
    simp only [blobMigSteps] at habs hcur
    by_cases hk : k ≤ (migCommits data).length
    · obtain ⟨_, hB, _, _⟩ := keyA (blobInitStore data) MigStep.deleteLegacyBlobDoc k hk
      rw [hB] at habs
      simp [blobInitStore] at habs
    · have hc := keyB (blobInitStore data) MigStep.deleteLegacyBlobDoc k
        (fun ops h => MigStep.noConfusion h) (by omega)
      rw [hc] at hcur
      have : r0 ∈ ([] : List Receipt) := by
        rw [← hcur]
        simpa [blobInitStore] using hmemAll
      cases this
  · simp only [blobMigSteps]
    exact (keyA (blobInitStore data) MigStep.deleteLegacyBlobDoc _ le_rfl).2.1
  · have hc := (keyA (blobInitStore data) MigStep.deleteLegacyBlobDoc _ le_rfl).2.2.2
    simp only [blobMigSteps]
    rw [hc, hfull]
    simpa [blobInitStore] using hmemAll
  · intro k
    rintro ⟨habs, hcur⟩
    simp only [localMigSteps] at habs hcur
    by_cases hk : k ≤ (migCommits data).length
    · obtain ⟨_, _, hL, _⟩ := keyA (localInitStore data) MigStep.clearLocalCache k hk
      rw [hL] at habs
      simp [localInitStore] at habs
    · have hc := keyB (localInitStore data) MigStep.clearLocalCache k
        (fun ops h => MigStep.noConfusion h) (by omega)
      rw [hc] at hcur
      have : r0 ∈ ([] : List Receipt) := by
        rw [← hcur]
        simpa [localInitStore] using hmemAll
      cases this
  · simp only [localMigSteps]
    exact (keyA (localInitStore data) MigStep.clearLocalCache _ le_rfl).2.2.1
  · have hc := (keyA (localInitStore data) MigStep.clearLocalCache _ le_rfl).2.2.2
    simp only [localMigSteps]
    rw [hc, hfull]
    simpa [localInitStore] using hmemAll

/-- Witness for C2: with one concrete receipt migrating through the flat
path, the cut just before the legacy delete has the receipt present in the
converted shape (and, by the theorem, the legacy source intact). -/
theorem c2_migration_write_before_delete_witness :
    rOct ∈ (runMigSteps (flatInitStore [rOct])
        ((flatMigSteps [rOct]).take (migCommits [rOct]).length)).current :=
  (c2_migration_write_before_delete [rOct] rOct (by decide) (by decide)).1.2.2

/-- C8 counterexample: in the `App.jsx` revision an event with an
unparsable timestamp is *included* under the "last 24h" filter, not
excluded as the claim states. -/
theorem c8_cex_unparsable_included_in_24h :
    parseReceiptDate now0 rBadDate.date = none
    ∧ filteredReceiptsApp now0 "24h" [rBadDate] = [rBadDate] := by
  exact ⟨by decide, by decide⟩

/-- C8 (amended): an event with an unparsable timestamp is always present
under the "all time" filter; under the "last 24h" filter the `part_000`
revision excludes it (fail-closed) while the `App.jsx` revision includes it
(fail-open). -/
theorem c8_unparsable_timestamp_filtering (now : NowCtx) (rs : List Receipt)
    (r : Receipt) (hp : parseReceiptDate now r.date = none) :
    filteredReceipts now "all" rs = rs
    ∧ r ∉ filteredReceipts now "24h" rs
    ∧ (r ∈ rs → r ∈ filteredReceiptsApp now "24h" rs) := by
  refine ⟨?_, ?_, ?_⟩
  · rw [filteredReceipts, if_neg (by decide)]
  · rw [filteredReceipts, if_pos rfl]
    intro hmem
    have h2 := (List.mem_filter.mp hmem).2
    rw [hp] at h2
    cases h2
  · intro hin
    rw [filteredReceiptsApp, if_pos rfl]
    refine List.mem_filter.mpr ⟨hin, ?_⟩
    rw [hp]

/-- Witness for C8 at the concrete unparsable-dated receipt. -/
theorem c8_unparsable_timestamp_filtering_witness :
    filteredReceipts now0 "all" [rBadDate] = [rBadDate]
    ∧ rBadDate ∉ filteredReceipts now0 "24h" [rBadDate]
    ∧ rBadDate ∈ filteredReceiptsApp now0 "24h" [rBadDate] := by
  have h := c8_unparsable_timestamp_filtering now0 [rBadDate] rBadDate (by decide)
  exact ⟨h.1, h.2.1, h.2.2 (by decide)⟩

/-- C9 counterexample: a bounty with amount 0 whose date fails to parse
gets ROI −100, not the 0 the claim's guarded division demands. -/
theorem c9_cex_zero_amount_roi :
    bZeroBad.amount = 0
    ∧ (mkBountyWindow now0 [] "c" bZeroBad).roi = -100
    ∧ (mkBountyWindow now0 [] "c" bZeroBad).roi ≠ 0 := by
  exact ⟨rfl, by decide, by decide⟩

/-- C9 (amended): when the bounty's timestamp parses, the window's ROI is
the guarded formula — 0 for amount 0 (and any non-positive amount), and
`((earned − amount)/amount)·100` (rounded by `toFixed(0)`; exact whenever
that value is an integer) for positive amount, giving 50 for (100, 150)
and −100 for (100, 0); when the bounty's timestamp does not parse the
window is `{amount, earned: 0, roi: −100}` regardless of the amount. -/
theorem c9_roi_computation :
    (∀ e : Int, roiOf 0 e = 0)
    ∧ roiOf 100 150 = 50
    ∧ roiOf 100 0 = -100
    ∧ (∀ a e : Int, 0 < a → a ∣ (e - a) * 100 →
        ((roiOf a e : Int) : ℚ) = (((e : ℚ) - a) / a) * 100)
    ∧ (∀ (now : NowCtx) (frs : List Receipt) (name : String) (b : Bounty) (t : Int),
        parseReceiptDate now b.date = some t →
        (mkBountyWindow now frs name b).roi
          = roiOf b.amount (mkBountyWindow now frs name b).earned)
    ∧ (∀ (now : NowCtx) (frs : List Receipt) (name : String) (b : Bounty),
        parseReceiptDate now b.date = none →
        mkBountyWindow now frs name b
          = { amount := b.amount, date := none, earned := 0, roi := -100 }) := by
  refine ⟨?_, ?_, ?_, ?_, ?_, ?_⟩
  · intro e; simp [roiOf]
  · norm_num [roiOf, jsToFixedRound]
  · norm_num [roiOf, jsToFixedRound]
  · intro a e ha hdvd
    obtain ⟨k, hk⟩ := hdvd
    have hane : (a : ℚ) ≠ 0 := by
      exact_mod_cast ha.ne'
    have hq : (((e : ℚ) - a) / a) * 100 = (k : ℚ) := by
      have hcast : ((e : ℚ) - a) * 100 = (a : ℚ) * k := by
        exact_mod_cast congrArg (fun z : Int => (z : ℚ)) hk
      field_simp
      linarith [hcast]
    rw [hq]
    have hval : roiOf a e = k := by
      rw [roiOf, if_pos ha, jsToFixedRound, hq]
      rw [Int.floor_int_add]
      norm_num
    rw [hval]
  · intro now frs name b t hp
    simp [mkBountyWindow, hp]
  · intro now frs name b hp
    simp [mkBountyWindow, hp]

/-- Witness for C9: the exact-formula case at (100, 150) and the
unparsable-date case at the concrete zero-amount bounty. -/
theorem c9_roi_computation_witness :
    ((roiOf 100 150 : Int) : ℚ) = (((150 : ℚ) - 100) / 100) * 100
    ∧ mkBountyWindow now0 [] "c" bZeroBad
        = { amount := 0, date := none, earned := 0, roi := -100 } := by
  have h := c9_roi_computation
  refine ⟨h.2.2.2.1 100 150 (by norm_num) (by decide), ?_⟩
  have h6 := h.2.2.2.2.2 now0 [] "c" bZeroBad (by decide)
  simpa using h6
